import Mathlib

/-!
Formal model of the activity-analysis pipeline of
`src/pages/ActivityAnalyzer.tsx` (the final component version of the file):
`extractActivityXml`, `parseXmlData`, `filterByDate`, `computeStats`,
`renderRecommendation`, and the pure core of `handleAnalyze`.

JavaScript `number` values are modelled by `JSNum`: NaN, signed infinities,
and finite values idealised as exact rationals (IEEE-754 double rounding is
abstracted to exact rational arithmetic).
-/

namespace ActivityAnalyzer

/-- Model of a JavaScript `number`: `NaN`, `Infinity`/`-Infinity`
(`inf true` / `inf false`), or a finite value as an exact rational. -/
inductive JSNum where
  | nan : JSNum
  | inf : Bool → JSNum
  | num : ℚ → JSNum
deriving DecidableEq

/-- JavaScript `+` on numbers: NaN-propagating, `Infinity + -Infinity = NaN`. -/
def jsAdd : JSNum → JSNum → JSNum
  | .nan, _ => .nan
  | _, .nan => .nan
  | .inf a, .inf b => if a = b then .inf a else .nan
  | .inf a, .num _ => .inf a
  | .num _, .inf b => .inf b
  | .num a, .num b => .num (a + b)

/-- JavaScript `<=` on numbers: every comparison involving NaN is false. -/
def jsLeB : JSNum → JSNum → Bool
  | .nan, _ => false
  | _, .nan => false
  | .inf false, _ => true
  | .inf true, .inf true => true
  | .inf true, _ => false
  | .num _, .inf b => b
  | .num a, .num b => decide (a ≤ b)

/-- JavaScript `>=` on numbers (for number operands `a >= b` agrees with
`b <= a`; NaN yields false). -/
def jsGeB (a b : JSNum) : Bool := jsLeB b a

/-- JavaScript `/` on numbers.  `0/0 = NaN`, `x/0 = ±Infinity` for `x ≠ 0`
(the sign of the zero divisor is ignored: the analyzer only divides by a
non-negative count). -/
def jsDiv : JSNum → JSNum → JSNum
  | .nan, _ => .nan
  | _, .nan => .nan
  | .inf _, .inf _ => .nan
  | .inf a, .num b => if b < 0 then .inf (!a) else .inf a
  | .num _, .inf _ => .num 0
  | .num a, .num b =>
    if b = 0 then
      if a = 0 then .nan else if 0 < a then .inf true else .inf false
    else .num (a / b)

/-- JavaScript `*` on numbers (signed zero ignored). -/
def jsMul : JSNum → JSNum → JSNum
  | .nan, _ => .nan
  | _, .nan => .nan
  | .inf a, .inf b => .inf (a == b)
  | .inf a, .num b => if b = 0 then .nan else if 0 < b then .inf a else .inf (!a)
  | .num a, .inf b => if a = 0 then .nan else if 0 < a then .inf b else .inf (!b)
  | .num a, .num b => .num (a * b)

/-- JavaScript unary minus on numbers. -/
def jsNeg : JSNum → JSNum
  | .nan => .nan
  | .inf b => .inf (!b)
  | .num q => .num (-q)

/-- `Math.round`: rounds half toward positive infinity. -/
def jsRound : JSNum → JSNum
  | .num q => .num ((⌊q + 1/2⌋ : ℤ) : ℚ)
  | x => x

/-- Binary step of `Math.max`: NaN-propagating, otherwise the larger value. -/
def jsMax2 : JSNum → JSNum → JSNum
  | .nan, _ => .nan
  | _, .nan => .nan
  | .inf true, _ => .inf true
  | _, .inf true => .inf true
  | .inf false, x => x
  | x, .inf false => x
  | .num a, .num b => .num (max a b)

/-- `Math.max(...xs)`: `-Infinity` on the empty argument list. -/
def jsMaxList (l : List JSNum) : JSNum := l.foldl jsMax2 (.inf false)

/-- `xs.reduce((s, d) => s + d.field, 0)`. -/
def sumJS (l : List JSNum) : JSNum := l.foldl jsAdd (.num 0)

/-- True exactly on finite (non-NaN, non-infinite) numbers. -/
def isFiniteB : JSNum → Bool
  | .num _ => true
  | _ => false

/-- The rational value of a finite number (0 on NaN/infinities). -/
def ratOf : JSNum → ℚ
  | .num q => q
  | _ => 0

/-- ASCII whitespace skipped by `parseFloat`. -/
def isSpaceB (c : Char) : Bool := c == ' ' || c == '\t' || c == '\n' || c == '\r'

/-- Numeric value of a list of decimal digit characters. -/
def digitsToNat (l : List Char) : Nat := l.foldl (fun n c => 10 * n + (c.toNat - 48)) 0

/-- Exponent part of a decimal literal for `parseFloat`: optional sign then
digits; an exponent with no digits contributes nothing (parseFloat backtracks). -/
def parseExpPart (l : List Char) : ℤ :=
  match l with
  | '+' :: r => if r.takeWhile Char.isDigit = [] then 0 else (digitsToNat (r.takeWhile Char.isDigit) : ℤ)
  | '-' :: r => if r.takeWhile Char.isDigit = [] then 0 else -(digitsToNat (r.takeWhile Char.isDigit) : ℤ)
  | r => if r.takeWhile Char.isDigit = [] then 0 else (digitsToNat (r.takeWhile Char.isDigit) : ℤ)

/-- Magnitude part of `parseFloat` after sign handling: `Infinity`, or the
longest prefix `digits [. digits] [e|E [sign] digits]`; NaN when no digit at
all can be read.  The exact value is
`(integer-and-fraction digits as an integer) · 10 ^ (exponent − number of
fraction digits)`, built with `mkRat` so that it reduces by kernel
computation. -/
def jsParseFloatCore (l : List Char) : JSNum :=
  if "Infinity".data.isPrefixOf l then .inf true
  else
    let ip := l.takeWhile Char.isDigit
    let r1 := l.dropWhile Char.isDigit
    let fp := match r1 with
      | '.' :: rr => rr.takeWhile Char.isDigit
      | _ => []
    let r2 := match r1 with
      | '.' :: rr => rr.dropWhile Char.isDigit
      | _ => r1
    if ip = [] ∧ fp = [] then .nan
    else
      let base : ℤ := ((digitsToNat ip * 10 ^ fp.length + digitsToNat fp : Nat) : ℤ)
      let ex : ℤ :=
        (match r2 with
         | 'e' :: r3 => parseExpPart r3
         | 'E' :: r3 => parseExpPart r3
         | _ => 0) - (fp.length : ℤ)
      .num (mkRat (base * (10 : ℤ) ^ ex.toNat) ((10 : ℕ) ^ (-ex).toNat))

/-- Model of JavaScript `parseFloat` (ASCII whitespace; decimal and
`Infinity` literals; unicode whitespace and other exotica are outside the
modelled input space). -/
def jsParseFloat (s : String) : JSNum :=
  match s.data.dropWhile isSpaceB with
  | '-' :: r => jsNeg (jsParseFloatCore r)
  | '+' :: r => jsParseFloatCore r
  | r => jsParseFloatCore r

/-- Gregorian leap-year test. -/
def isLeapYear (y : Nat) : Bool := (y % 4 == 0 && !(y % 100 == 0)) || y % 400 == 0

/-- Days in a month of the Gregorian calendar. -/
def daysInMonth (y m : Nat) : Nat :=
  if m = 2 then (if isLeapYear y then 29 else 28)
  else if m = 4 ∨ m = 6 ∨ m = 9 ∨ m = 11 then 30
  else 31

/-- Model of `new Date(s)` restricted to ISO `YYYY-MM-DD` strings (the
format produced by the date inputs and by `dateComponents` attributes of
the export); every other string is an invalid date (`none`).  The ordinal
`y * 10000 + m * 100 + d` is strictly monotone in the calendar date, so
`<=`/`>=` comparisons agree with comparisons of the real time values. -/
def jsParseDate (s : String) : Option Int :=
  match s.data with
  | [y1, y2, y3, y4, h1, m1, m2, h2, d1, d2] =>
    if y1.isDigit && y2.isDigit && y3.isDigit && y4.isDigit &&
       (h1 == '-') && m1.isDigit && m2.isDigit && (h2 == '-') && d1.isDigit && d2.isDigit then
      let y := digitsToNat [y1, y2, y3, y4]
      let m := digitsToNat [m1, m2]
      let d := digitsToNat [d1, d2]
      if 1 ≤ m ∧ m ≤ 12 ∧ 1 ≤ d ∧ d ≤ daysInMonth y m then
        some ((y : Int) * 10000 + (m : Int) * 100 + (d : Int))
      else none
    else none
  | _ => none

/-- `cur >= start` on `Date` values: false when either date is invalid. -/
def dateGeB : Option Int → Option Int → Bool
  | some a, some b => decide (b ≤ a)
  | _, _ => false

/-- `cur <= end` on `Date` values: false when either date is invalid. -/
def dateLeB : Option Int → Option Int → Bool
  | some a, some b => decide (a ≤ b)
  | _, _ => false

/-- The `ActivityData` record type of the source (one per record tag). -/
structure ActivityData where
  date : String
  calories : JSNum
  caloriesGoal : JSNum
  exercise : JSNum
  exerciseGoal : JSNum
  stand : JSNum
  standGoal : JSNum
deriving DecidableEq

/-- The `Stats` type of the source. -/
structure Stats where
  totalDays : Nat
  maxCalories : JSNum
  maxExercise : JSNum
  maxStand : JSNum
  avgCalories : JSNum
  avgExercise : JSNum
  avgStand : JSNum
  daysHitCalories : Nat
  daysHitExercise : Nat
  daysHitStand : Nat
deriving DecidableEq

/-- `filterByDate` (source lines 320-328).  The component state
`startDate`/`endDate` is passed explicitly.  `!startDate || !endDate` on
strings is emptiness. -/
def filterByDate (startDate endDate : String) (entries : List ActivityData) : List ActivityData :=
  if startDate = "" ∨ endDate = "" then entries
  else
    let start := jsParseDate startDate
    let stop := jsParseDate endDate
    entries.filter (fun d => dateGeB (jsParseDate d.date) start && dateLeB (jsParseDate d.date) stop)

/-- `computeStats` (source lines 331-346). -/
def computeStats (entries : List ActivityData) : Stats :=
  let totalDays := entries.length
  { totalDays := totalDays
    maxCalories := jsMaxList (entries.map (fun d => d.calories))
    maxExercise := jsMaxList (entries.map (fun d => d.exercise))
    maxStand := jsMaxList (entries.map (fun d => d.stand))
    avgCalories := jsDiv (sumJS (entries.map (fun d => d.calories))) (.num (totalDays : ℚ))
    avgExercise := jsDiv (sumJS (entries.map (fun d => d.exercise))) (.num (totalDays : ℚ))
    avgStand := jsDiv (sumJS (entries.map (fun d => d.stand))) (.num (totalDays : ℚ))
    daysHitCalories := (entries.filter (fun d => jsGeB d.calories d.caloriesGoal)).length
    daysHitExercise := (entries.filter (fun d => jsGeB d.exercise d.exerciseGoal)).length
    daysHitStand := (entries.filter (fun d => jsGeB d.stand d.standGoal)).length }

/-- Outcome of `renderRecommendation`: the rendered advisory abstracts the
JSX paragraph to its direction, dimension label and displayed percentage
(`null` becomes `none`). -/
inductive Recommendation where
  | raiseGoal : String → JSNum → Recommendation
  | lowerGoal : String → JSNum → Recommendation
deriving DecidableEq

/-- `renderRecommendation` (source lines 382-391).  The call sites pass the
`daysHit*` counts and `totalDays`, hence `Nat` arguments. -/
def renderRecommendation (hit total : Nat) (label : String) : Option Recommendation :=
  let rate := jsDiv (.num (hit : ℚ)) (.num (total : ℚ))
  if jsGeB rate (.num (4/5 : ℚ)) then
    some (.raiseGoal label (jsRound (jsMul rate (.num (100 : ℚ)))))
  else if jsLeB rate (.num (3/10 : ℚ)) then
    some (.lowerGoal label (jsRound (jsMul rate (.num (100 : ℚ)))))
  else none

/-- An element of the parsed XML document: tag name and attribute list in
source order. -/
structure XmlElement where
  name : String
  attrs : List (String × String)
deriving DecidableEq

/-- Build a string back from a character list. -/
def strOf (l : List Char) : String := ⟨l⟩

/-- Word character of the JavaScript regex class `\w` (for `\b`). -/
def isWordCharB (c : Char) : Bool := c.isAlphanum || c == '_'

/-- ASCII restriction of an XML name start character. -/
def isNameStartCharB (c : Char) : Bool := c.isAlpha || c == '_' || c == ':'

/-- ASCII restriction of an XML name character. -/
def isNameCharB (c : Char) : Bool :=
  c.isAlphanum || c == '_' || c == ':' || c == '-' || c == '.'

/-- XML whitespace. -/
def isXmlSpaceB (c : Char) : Bool := c == ' ' || c == '\t' || c == '\n' || c == '\r'

/-- Does the regex `/<ActivitySummary\b[^>]*\/?>/` match starting at this
position?  True iff the text starts with the literal `<ActivitySummary`
followed by a word boundary. -/
def tagStartsHere (l : List Char) : Bool :=
  "<ActivitySummary".data.isPrefixOf l &&
    (match l.drop 16 with
     | [] => true
     | d :: _ => !isWordCharB d)

/-- Split a character list at the first `'>'`, returning the chunk up to and
including it, and the remainder.  `none` when there is no `'>'`.  Because
`/` is itself in `[^>]`, the regex `[^>]*\/?>` matches exactly up to the
first `'>'`. -/
def breakAfterGt : List Char → Option (List Char × List Char)
  | [] => none
  | c :: cs =>
    if c = '>' then some ([c], cs)
    else
      match breakAfterGt cs with
      | some (m, r) => some (c :: m, r)
      | none => none

/-- Global scan of `text.match(/<ActivitySummary\b[^>]*\/?>/g)`: at each
position, either emit the match starting there or advance one character,
as the JavaScript regex engine does.  Fuel is one unit per consumed
character; callers pass `length + 1`. -/
def extractAuxF : Nat → List Char → List (List Char)
  | 0, _ => []
  | _ + 1, [] => []
  | f + 1, c :: rest =>
    if tagStartsHere (c :: rest) then
      match breakAfterGt (c :: rest) with
      | some (m, r) => m :: extractAuxF f r
      | none => []
    else extractAuxF f rest

/-- `extractActivityXml` (source lines 297-301): concatenation of all
regex matches, the empty string when there is none. -/
def extractActivityXml (text : String) : String :=
  strOf ((extractAuxF (text.length + 1) text.data).foldr (· ++ ·) [])

/-- The five predefined XML entities (`&#...;` character references are
outside the modelled input space). -/
def parseEntity : List Char → Option (Char × List Char)
  | 'a' :: 'm' :: 'p' :: ';' :: r => some ('&', r)
  | 'l' :: 't' :: ';' :: r => some ('<', r)
  | 'g' :: 't' :: ';' :: r => some ('>', r)
  | 'q' :: 'u' :: 'o' :: 't' :: ';' :: r => some ('"', r)
  | 'a' :: 'p' :: 'o' :: 's' :: ';' :: r => some (Char.ofNat 39, r)
  | _ => none

/-- Scan a quoted attribute value up to the closing quote `q`.  A raw `<`,
a malformed entity, or the end of input before the closing quote is a
parse error, as in XML.  Fuel: one unit per consumed character. -/
def parseAttrValue (q : Char) : Nat → List Char → Option (List Char × List Char)
  | 0, _ => none
  | _ + 1, [] => none
  | f + 1, c :: rest =>
    if c = q then some ([], rest)
    else if c = '<' then none
    else if c = '&' then
      match parseEntity rest with
      | some (ch, r) =>
        match parseAttrValue q f r with
        | some (v, rr) => some (ch :: v, rr)
        | none => none
      | none => none
    else
      match parseAttrValue q f rest with
      | some (v, rr) => some (c :: v, rr)
      | none => none

/-- Parse one `name = "value"` attribute (spaces allowed around `=`,
single or double quotes). -/
def parseOneAttr (l : List Char) : Option ((String × String) × List Char) :=
  let nm := l.takeWhile isNameCharB
  let r1 := l.dropWhile isNameCharB
  if nm = [] then none
  else
    let r2 := r1.dropWhile isXmlSpaceB
    match r2 with
    | '=' :: r3 =>
      let r4 := r3.dropWhile isXmlSpaceB
      match r4 with
      | c :: r5 =>
        if c = '"' || c = Char.ofNat 39 then
          match parseAttrValue c (r5.length + 1) r5 with
          | some (v, r6) => some ((strOf nm, strOf v), r6)
          | none => none
        else none
      | [] => none
    | _ => none

/-- Attribute list of a tag, after the tag name.  Stops before `/` or `>`;
each attribute must be preceded by at least one whitespace character, as
in XML.  Fuel: one unit per whitespace character or attribute. -/
def parseAttrsF : Nat → Bool → List Char → Option (List (String × String) × List Char)
  | 0, _, _ => none
  | _ + 1, _, [] => some ([], [])
  | f + 1, afterSpace, c :: rest =>
    if c = '/' ∨ c = '>' then some ([], c :: rest)
    else if isXmlSpaceB c then parseAttrsF f true rest
    else if afterSpace && isNameStartCharB c then
      match parseOneAttr (c :: rest) with
      | some (attr, r) =>
        match parseAttrsF f false r with
        | some (attrs, rr) => some (attr :: attrs, rr)
        | none => none
      | none => none
    else none

/-- Parse one element after its opening `<`.  Restriction justified by the
reachable inputs: `parseXmlData` is only applied to `extractActivityXml`
output, whose tags contain no closing tags at all, so a child element that
is not self-closing can never be closed before `</root>` and always makes
the real document parse fail; the model therefore rejects a child open tag
that is not self-closing immediately.  Duplicate attribute names are a
well-formedness error, as in XML. -/
def parseElementAfterLt (l : List Char) : Option (XmlElement × List Char) :=
  let nm := l.takeWhile isNameCharB
  let r1 := l.dropWhile isNameCharB
  match nm with
  | [] => none
  | c :: _ =>
    if isNameStartCharB c then
      match parseAttrsF (r1.length + 1) false r1 with
      | some (attrs, r2) =>
        match r2 with
        | '/' :: '>' :: r3 =>
          if (attrs.map Prod.fst).Nodup then some (⟨strOf nm, attrs⟩, r3) else none
        | _ => none
      | none => none
    else none

/-- Sequence of child items of the synthetic root: character data
(entities decoded, raw `&` with no entity and raw `<` before a non-name
character are errors) and self-closing elements.  Stops in front of a
closing tag (`</`).  Fuel: one unit per character or element. -/
def parseItemsF : Nat → List Char → Option (List XmlElement × List Char)
  | 0, _ => none
  | _ + 1, [] => some ([], [])
  | f + 1, c :: rest =>
    if c = '<' then
      match rest with
      | [] => none
      | d :: _ =>
        if d = '/' then some ([], c :: rest)
        else
          match parseElementAfterLt rest with
          | some (e, r) =>
            match parseItemsF f r with
            | some (es, rr) => some (e :: es, rr)
            | none => none
          | none => none
    else if c = '&' then
      match parseEntity rest with
      | some (_, r) => parseItemsF f r
      | none => none
    else parseItemsF f rest

/-- Parse of the wrapped document `<root>…</root>` built by
`parseXmlData`.  `none` models a `DOMParser` result whose document is a
`parsererror` document (note: `parseFromString` never throws). -/
def parseDocChars (l : List Char) : Option (List XmlElement) :=
  if "<root>".data.isPrefixOf l then
    match parseItemsF (l.length + 1) (l.drop 6) with
    | some (es, rest) => if rest = "</root>".data then some es else none
    | none => none
  else none

/-- `e.getAttribute(n)`: the attribute's value, `null` (`none`) when absent. -/
def getAttr (e : XmlElement) (n : String) : Option String :=
  (e.attrs.find? (fun p => p.1 == n)).map (fun p => p.2)

/-- `e.getAttribute(n) || '0'`: the string `"0"` when the attribute is
absent (`null`) or present with the empty (falsy) value. -/
def attrOrZero (e : XmlElement) (n : String) : String :=
  match getAttr e n with
  | none => "0"
  | some s => if s = "" then "0" else s

/-- The per-element record construction of `parseXmlData`
(source lines 308-316). -/
def recordOfElement (e : XmlElement) : ActivityData :=
  { date := (getAttr e "dateComponents").getD ""
    calories := jsParseFloat (attrOrZero e "activeEnergyBurned")
    caloriesGoal := jsParseFloat (attrOrZero e "activeEnergyBurnedGoal")
    exercise := jsParseFloat (attrOrZero e "appleExerciseTime")
    exerciseGoal := jsParseFloat (attrOrZero e "appleExerciseTimeGoal")
    stand := jsParseFloat (attrOrZero e "appleStandHours")
    standGoal := jsParseFloat (attrOrZero e "appleStandHoursGoal") }

/-- The `ActivitySummary` elements reachable from
`xml.getElementsByTagName('ActivitySummary')` on the parsed wrapped
document: the matching children, in document order; none on a
`parsererror` document. -/
def activityElements (fragment : String) : List XmlElement :=
  match parseDocChars ("<root>" ++ fragment ++ "</root>").data with
  | some es => es.filter (fun e => e.name = "ActivitySummary")
  | none => []

/-- `parseXmlData` (source lines 304-317).  Total: `DOMParser` signals
malformed markup through a `parsererror` document, not an exception, so a
document-level parse failure silently yields the empty record list here. -/
def parseXmlData (fragment : String) : List ActivityData :=
  (activityElements fragment).map recordOfElement

/-- The pure computational core of `handleAnalyze` (source lines 361-365)
after the file contents are available: extract, parse, filter, and return
the pair stored by `setData`/`setStats`.  No step throws, and there is no
emptiness check between filtering and aggregation. -/
def handleAnalyze (xmlContent startDate endDate : String) : List ActivityData × Stats :=
  let fragment := extractActivityXml xmlContent
  let parsed := parseXmlData fragment
  let filtered := filterByDate startDate endDate parsed
  (filtered, computeStats filtered)

/-- Characters of one rendered attribute ` name="value"`. -/
def attrChars (p : String × String) : List Char :=
  ' ' :: p.1.data ++ '=' :: '"' :: p.2.data ++ ['"']

/-- Characters of a rendered attribute list. -/
def renderAttrsChars (attrs : List (String × String)) : List Char :=
  (attrs.map attrChars).foldr (· ++ ·) []

/-- Characters of one well-formed self-closing record tag
`<ActivitySummary name="value" …/>`. -/
def renderTagChars (attrs : List (String × String)) : List Char :=
  '<' :: "ActivitySummary".data ++ renderAttrsChars attrs ++ ['/', '>']

/-- A text built from leading junk `s0` and a sequence of record tags each
followed by its own junk separator. -/
def interleave : List Char → List (List (String × String) × List Char) → List Char
  | s0, [] => s0
  | s0, (attrs, sep) :: rest => s0 ++ renderTagChars attrs ++ interleave sep rest

/-- Concatenation of the rendered tags of a list of attribute lists. -/
def joinTags (tags : List (List (String × String))) : List Char :=
  (tags.map renderTagChars).foldr (· ++ ·) []

/-- Well-formedness of an attribute list for a rendered record tag: names
are nonempty XML names, pairwise distinct; values contain no quote, no
`<`, no `&` (no entities needed) and no `>` (so the tag's only `>` is its
final character). -/
def validAttrsB (attrs : List (String × String)) : Bool :=
  decide ((attrs.map Prod.fst).Nodup) &&
    attrs.all (fun p =>
      (match p.1.data with
       | [] => false
       | c :: _ => isNameStartCharB c) &&
      p.1.data.all isNameCharB &&
      p.2.data.all (fun c => !(c == '"' || c == '<' || c == '&' || c == '>')))

/-- The element a well-formed rendered record tag parses to. -/
def elemOfAttrs (attrs : List (String × String)) : XmlElement :=
  ⟨"ActivitySummary", attrs⟩

/-- The record a well-formed rendered record tag yields. -/
def recordOfAttrs (attrs : List (String × String)) : ActivityData :=
  recordOfElement (elemOfAttrs attrs)

/-- Specification-side membership test of the date-range filter, written
from the spec: all three dates parse and the record's date lies in the
inclusive interval. -/
def inRangeSpecB (startDate endDate : String) (d : ActivityData) : Bool :=
  match jsParseDate startDate, jsParseDate endDate, jsParseDate d.date with
  | some s, some e, some c => decide (s ≤ c ∧ c ≤ e)
  | _, _, _ => false

theorem foldl_jsAdd_num :
    ∀ (l : List JSNum) (q : ℚ), (∀ x ∈ l, isFiniteB x = true) →
      l.foldl jsAdd (JSNum.num q) = JSNum.num (q + (l.map ratOf).sum)
  | [], q, _ => by simp
  | x :: t, q, h => by
    cases x with
    | nan => exact absurd (h _ (List.mem_cons_self _ _)) (by simp [isFiniteB])
    | inf b => exact absurd (h _ (List.mem_cons_self _ _)) (by simp [isFiniteB])
    | num r =>
      have := foldl_jsAdd_num t (q + r) (fun y hy => h y (List.mem_cons_of_mem _ hy))
      simp only [List.foldl_cons, jsAdd] at this ⊢
      rw [this]
      simp [ratOf, add_assoc]

theorem sumJS_of_finite (l : List JSNum) (h : ∀ x ∈ l, isFiniteB x = true) :
    sumJS l = JSNum.num ((l.map ratOf).sum) := by
  simpa using foldl_jsAdd_num l 0 h

/-- C10: invoked with `total = 0` (hence `hit = 0`), the unguarded division
yields NaN, both threshold comparisons are false, and the engine returns
no advisory (and, being a total function, it does not crash). -/
theorem C10_zero_total (label : String) :
    renderRecommendation 0 0 label = none ∧
    jsDiv (JSNum.num 0) (JSNum.num 0) = JSNum.nan ∧
    jsGeB JSNum.nan (JSNum.num (4/5 : ℚ)) = false ∧
    jsLeB JSNum.nan (JSNum.num (3/10 : ℚ)) = false := by
  refine ⟨?_, by decide, by decide, by decide⟩
  simp [renderRecommendation, jsDiv, jsGeB, jsLeB]

/-- C8: the date-range filter is idempotent: filtering an already-filtered
sequence by the same range gives the same sequence. -/
theorem C8_filter_idempotent (startDate endDate : String) (entries : List ActivityData) :
    filterByDate startDate endDate (filterByDate startDate endDate entries) =
      filterByDate startDate endDate entries := by
  unfold filterByDate
  by_cases h : startDate = "" ∨ endDate = ""
  · simp [h]
  · simp [h, List.filter_filter]

/-- C7: for every non-empty record sequence, each `daysHit*` counts the
records whose achieved value is at least that record's own goal, and
`0 ≤ daysHit* ≤ totalDays` in all three dimensions. -/
theorem C7_daysHit_bounds (entries : List ActivityData) (h : entries ≠ []) :
    (computeStats entries).daysHitCalories
        = (entries.filter (fun d => jsGeB d.calories d.caloriesGoal)).length ∧
    (computeStats entries).daysHitExercise
        = (entries.filter (fun d => jsGeB d.exercise d.exerciseGoal)).length ∧
    (computeStats entries).daysHitStand
        = (entries.filter (fun d => jsGeB d.stand d.standGoal)).length ∧
    0 ≤ (computeStats entries).daysHitCalories ∧
    (computeStats entries).daysHitCalories ≤ (computeStats entries).totalDays ∧
    0 ≤ (computeStats entries).daysHitExercise ∧
    (computeStats entries).daysHitExercise ≤ (computeStats entries).totalDays ∧
    0 ≤ (computeStats entries).daysHitStand ∧
    (computeStats entries).daysHitStand ≤ (computeStats entries).totalDays := by
  refine ⟨rfl, rfl, rfl, Nat.zero_le _, ?_, Nat.zero_le _, ?_, Nat.zero_le _, ?_⟩ <;>
    exact List.length_filter_le _ _

/-- C7 witness: instantiation at a concrete one-record sequence. -/
theorem C7_daysHit_bounds_witness :
    (computeStats [⟨"2024-01-01", .num 500, .num 400, .num 30, .num 30, .num 10, .num 12⟩]).daysHitCalories
        ≤ (computeStats [⟨"2024-01-01", .num 500, .num 400, .num 30, .num 30, .num 10, .num 12⟩]).totalDays :=
  (C7_daysHit_bounds [⟨"2024-01-01", .num 500, .num 400, .num 30, .num 30, .num 10, .num 12⟩]
    (by decide)).2.2.2.2.1

/-- C9: for every non-empty record sequence of finite values, each average
equals the sum of the field over the records divided by `totalDays`
(exactly, in the idealised rational model of doubles). -/
theorem C9_averages (entries : List ActivityData) (h : entries ≠ [])
    (hfin : ∀ d ∈ entries,
      isFiniteB d.calories = true ∧ isFiniteB d.exercise = true ∧ isFiniteB d.stand = true) :
    (computeStats entries).avgCalories
        = JSNum.num ((entries.map (fun d => ratOf d.calories)).sum
            / ((computeStats entries).totalDays : ℚ)) ∧
    (computeStats entries).avgExercise
        = JSNum.num ((entries.map (fun d => ratOf d.exercise)).sum
            / ((computeStats entries).totalDays : ℚ)) ∧
    (computeStats entries).avgStand
        = JSNum.num ((entries.map (fun d => ratOf d.stand)).sum
            / ((computeStats entries).totalDays : ℚ)) := by
  have h0 : entries.length ≠ 0 := by simpa [List.length_eq_zero] using h
  have hlen : ((entries.length : ℚ)) ≠ 0 := Nat.cast_ne_zero.mpr h0
  refine ⟨?_, ?_, ?_⟩
  · have hx : ∀ x ∈ entries.map (fun d => d.calories), isFiniteB x = true := by
      intro x hx
      rw [List.mem_map] at hx
      obtain ⟨d, hd, rfl⟩ := hx
      exact (hfin d hd).1
    show jsDiv (sumJS (entries.map (fun d => d.calories))) (JSNum.num (entries.length : ℚ))
        = JSNum.num ((entries.map (fun d => ratOf d.calories)).sum / ((entries.length : ℚ)))
    rw [sumJS_of_finite _ hx]
    simp [jsDiv, hlen, List.map_map, Function.comp_def]
  · have hx : ∀ x ∈ entries.map (fun d => d.exercise), isFiniteB x = true := by
      intro x hx
      rw [List.mem_map] at hx
      obtain ⟨d, hd, rfl⟩ := hx
      exact (hfin d hd).2.1
    show jsDiv (sumJS (entries.map (fun d => d.exercise))) (JSNum.num (entries.length : ℚ))
        = JSNum.num ((entries.map (fun d => ratOf d.exercise)).sum / ((entries.length : ℚ)))
    rw [sumJS_of_finite _ hx]
    simp [jsDiv, hlen, List.map_map, Function.comp_def]
  · have hx : ∀ x ∈ entries.map (fun d => d.stand), isFiniteB x = true := by
      intro x hx
      rw [List.mem_map] at hx
      obtain ⟨d, hd, rfl⟩ := hx
      exact (hfin d hd).2.2
    show jsDiv (sumJS (entries.map (fun d => d.stand))) (JSNum.num (entries.length : ℚ))
        = JSNum.num ((entries.map (fun d => ratOf d.stand)).sum / ((entries.length : ℚ)))
    rw [sumJS_of_finite _ hx]
    simp [jsDiv, hlen, List.map_map, Function.comp_def]

/-- C9 witness: instantiation at a concrete two-record sequence. -/
theorem C9_averages_witness :
    (computeStats [⟨"a", .num 10, .num 1, .num 2, .num 1, .num 4, .num 1⟩,
                   ⟨"b", .num 20, .num 1, .num 6, .num 1, .num 8, .num 1⟩]).avgCalories
      = JSNum.num (([10, 20] : List ℚ).sum / (2 : ℚ)) := by
  have := (C9_averages [⟨"a", .num 10, .num 1, .num 2, .num 1, .num 4, .num 1⟩,
                        ⟨"b", .num 20, .num 1, .num 6, .num 1, .num 8, .num 1⟩]
    (by decide) (by decide)).1
  rw [this]; norm_num [computeStats, ratOf]

/-- C5: with `total > 0`, the "raise" advisory fires exactly when
`hit/total ≥ 0.8`, the "lower" advisory exactly when `hit/total ≤ 0.3`
(both boundaries inclusive), nothing fires otherwise, and the displayed
percentage is `hit/total · 100` rounded to the nearest integer
(`Math.round`, half up). -/
theorem C5_thresholds (hit total : Nat) (label : String) (h : 0 < total) :
    renderRecommendation hit total label =
      (if (4 : ℚ)/5 ≤ (hit : ℚ) / (total : ℚ) then
        some (Recommendation.raiseGoal label
          (JSNum.num ((⌊(hit : ℚ) / (total : ℚ) * 100 + 1/2⌋ : ℤ) : ℚ)))
      else if (hit : ℚ) / (total : ℚ) ≤ 3/10 then
        some (Recommendation.lowerGoal label
          (JSNum.num ((⌊(hit : ℚ) / (total : ℚ) * 100 + 1/2⌋ : ℤ) : ℚ)))
      else none) := by
  have ht : ((total : ℚ)) ≠ 0 := Nat.cast_ne_zero.mpr h.ne'
  unfold renderRecommendation
  simp only [jsDiv, if_neg ht, jsGeB, jsLeB, jsMul, jsRound, decide_eq_true_eq]

/-- C5 witness: ratio exactly 0.8 fires the raise advisory at 80%. -/
theorem C5_thresholds_witness :
    renderRecommendation 4 5 "kalorijų" =
      some (Recommendation.raiseGoal "kalorijų" (JSNum.num 80)) := by
  rw [C5_thresholds 4 5 "kalorijų" (by decide)]
  norm_num

/-- C4: the date-range filter returns the sequence unchanged when either
boundary is empty; with both boundaries set it returns exactly the
records whose parsed date lies in the inclusive interval, and every
record whose date fails to parse is excluded. -/
theorem C4_date_filter (startDate endDate : String) (entries : List ActivityData) :
    (startDate = "" ∨ endDate = "" → filterByDate startDate endDate entries = entries) ∧
    (startDate ≠ "" → endDate ≠ "" →
      filterByDate startDate endDate entries = entries.filter (inRangeSpecB startDate endDate) ∧
      ∀ d ∈ filterByDate startDate endDate entries, (jsParseDate d.date).isSome = true) := by
  constructor
  · intro h
    simp [filterByDate, h]
  · intro h1 h2
    have hne : ¬(startDate = "" ∨ endDate = "") := not_or.mpr ⟨h1, h2⟩
    constructor
    · unfold filterByDate
      rw [if_neg hne]
      apply List.filter_congr
      intro d _
      unfold inRangeSpecB dateGeB dateLeB
      cases jsParseDate startDate <;> cases jsParseDate endDate <;>
        cases jsParseDate d.date <;> simp [Bool.and_comm]
    · intro d hd
      unfold filterByDate at hd
      rw [if_neg hne] at hd
      have := List.of_mem_filter hd
      cases hc : jsParseDate d.date with
      | some _ => rfl
      | none => rw [hc] at this; simp [dateGeB] at this

/-- C4 witness: a concrete range keeps the in-range record and drops the
unparsable-date record and the out-of-range record. -/
theorem C4_date_filter_witness :
    filterByDate "2024-01-01" "2024-12-31"
        [⟨"2024-06-05", .num 1, .num 1, .num 1, .num 1, .num 1, .num 1⟩,
         ⟨"bad", .num 2, .num 1, .num 1, .num 1, .num 1, .num 1⟩,
         ⟨"2025-06-05", .num 3, .num 1, .num 1, .num 1, .num 1, .num 1⟩]
      = List.filter (inRangeSpecB "2024-01-01" "2024-12-31")
        [⟨"2024-06-05", .num 1, .num 1, .num 1, .num 1, .num 1, .num 1⟩,
         ⟨"bad", .num 2, .num 1, .num 1, .num 1, .num 1, .num 1⟩,
         ⟨"2025-06-05", .num 3, .num 1, .num 1, .num 1, .num 1, .num 1⟩] :=
  ((C4_date_filter "2024-01-01" "2024-12-31"
      [⟨"2024-06-05", .num 1, .num 1, .num 1, .num 1, .num 1, .num 1⟩,
       ⟨"bad", .num 2, .num 1, .num 1, .num 1, .num 1, .num 1⟩,
       ⟨"2025-06-05", .num 3, .num 1, .num 1, .num 1, .num 1, .num 1⟩]).2
    (by decide) (by decide)).1

/-- C1: a fragment that fails to parse as a document — for example the
non-self-closing `<ActivitySummary>` produced by the extractor from the
raw text `<ActivitySummary>` — does NOT surface a fatal error:
`DOMParser.parseFromString` reports malformed markup through a
`parsererror` document instead of throwing, `parseXmlData` silently
returns the empty record list, and `handleAnalyze` proceeds to aggregate
it (the `catch` never fires). -/
theorem C1_parse_failure_silent :
    parseDocChars ("<root>" ++ "<ActivitySummary>" ++ "</root>").data = none ∧
    parseXmlData "<ActivitySummary>" = [] ∧
    handleAnalyze "<ActivitySummary>" "" "" = ([], computeStats []) := by
  refine ⟨by decide, by decide, by decide⟩

/-- C2 counterexample: an `activeEnergyBurned` attribute present with the
unparsable value `"abc"` yields a record whose `calories` field is NaN,
not 0 (`parseFloat('abc' || '0') = parseFloat('abc') = NaN`); the claim
that such a field is 0 is false. -/
theorem C2_counterexample :
    parseXmlData "<ActivitySummary activeEnergyBurned=\"abc\"/>" =
      [⟨"", JSNum.nan, .num 0, .num 0, .num 0, .num 0, .num 0⟩] ∧
    JSNum.nan ≠ JSNum.num 0 := by
  refine ⟨by rfl, by decide⟩

/-- C3: the code does not detect a zero-length aggregation set: with one
valid record and a date range excluding it, `handleAnalyze` invokes
`computeStats` on the empty sequence and stores Statistics with
`totalDays = 0`, NaN averages and `-Infinity` maxima instead of
reporting an error. -/
theorem C3_empty_aggregation :
    handleAnalyze "<ActivitySummary dateComponents=\"2024-01-01\"/>" "2024-02-01" "2024-02-28"
      = ([], computeStats []) ∧
    computeStats [] =
      { totalDays := 0
        maxCalories := .inf false, maxExercise := .inf false, maxStand := .inf false
        avgCalories := .nan, avgExercise := .nan, avgStand := .nan
        daysHitCalories := 0, daysHitExercise := 0, daysHitStand := 0 } := by
  refine ⟨by rfl, by rfl⟩

theorem attrOrZero_of_absent (e : XmlElement) (n : String)
    (h : getAttr e n = none ∨ getAttr e n = some "") : attrOrZero e n = "0" := by
  cases h with
  | inl h => simp [attrOrZero, h]
  | inr h => simp [attrOrZero, h]

theorem attrOrZero_of_present (e : XmlElement) (n s : String)
    (h : getAttr e n = some s) (hs : s ≠ "") : attrOrZero e n = s := by
  simp [attrOrZero, h, hs]

theorem jsParseFloat_zero_str : jsParseFloat "0" = JSNum.num 0 := by decide

theorem field_zero_of_absent (e : XmlElement) (n : String)
    (h : getAttr e n = none ∨ getAttr e n = some "") :
    jsParseFloat (attrOrZero e n) = JSNum.num 0 := by
  rw [attrOrZero_of_absent e n h]
  exact jsParseFloat_zero_str

theorem field_raw_of_present (e : XmlElement) (n s : String)
    (h : getAttr e n = some s) (hs : s ≠ "") :
    jsParseFloat (attrOrZero e n) = jsParseFloat s := by
  rw [attrOrZero_of_present e n s h hs]

/-- C2 (amended): for each of the six numeric fields, an absent attribute —
or one present with the empty (falsy) string — yields the field value 0;
an attribute present with a nonempty value yields exactly
`parseFloat(value)`, which is NaN (not 0) when the value has no numeric
prefix; and a record is produced for every parsed element regardless of
its attributes (never rejected). -/
theorem C2_amended :
    (∀ e : XmlElement,
      ((getAttr e "activeEnergyBurned" = none ∨ getAttr e "activeEnergyBurned" = some "") →
        (recordOfElement e).calories = JSNum.num 0) ∧
      (∀ s, getAttr e "activeEnergyBurned" = some s → s ≠ "" →
        (recordOfElement e).calories = jsParseFloat s) ∧
      ((getAttr e "activeEnergyBurnedGoal" = none ∨ getAttr e "activeEnergyBurnedGoal" = some "") →
        (recordOfElement e).caloriesGoal = JSNum.num 0) ∧
      (∀ s, getAttr e "activeEnergyBurnedGoal" = some s → s ≠ "" →
        (recordOfElement e).caloriesGoal = jsParseFloat s) ∧
      ((getAttr e "appleExerciseTime" = none ∨ getAttr e "appleExerciseTime" = some "") →
        (recordOfElement e).exercise = JSNum.num 0) ∧
      (∀ s, getAttr e "appleExerciseTime" = some s → s ≠ "" →
        (recordOfElement e).exercise = jsParseFloat s) ∧
      ((getAttr e "appleExerciseTimeGoal" = none ∨ getAttr e "appleExerciseTimeGoal" = some "") →
        (recordOfElement e).exerciseGoal = JSNum.num 0) ∧
      (∀ s, getAttr e "appleExerciseTimeGoal" = some s → s ≠ "" →
        (recordOfElement e).exerciseGoal = jsParseFloat s) ∧
      ((getAttr e "appleStandHours" = none ∨ getAttr e "appleStandHours" = some "") →
        (recordOfElement e).stand = JSNum.num 0) ∧
      (∀ s, getAttr e "appleStandHours" = some s → s ≠ "" →
        (recordOfElement e).stand = jsParseFloat s) ∧
      ((getAttr e "appleStandHoursGoal" = none ∨ getAttr e "appleStandHoursGoal" = some "") →
        (recordOfElement e).standGoal = JSNum.num 0) ∧
      (∀ s, getAttr e "appleStandHoursGoal" = some s → s ≠ "" →
        (recordOfElement e).standGoal = jsParseFloat s)) ∧
    (∀ fragment : String, (parseXmlData fragment).length = (activityElements fragment).length) := by
  refine ⟨fun e => ⟨?_, ?_, ?_, ?_, ?_, ?_, ?_, ?_, ?_, ?_, ?_, ?_⟩, fun fragment => ?_⟩
  · exact fun h => field_zero_of_absent e _ h
  · exact fun s h hs => field_raw_of_present e _ s h hs
  · exact fun h => field_zero_of_absent e _ h
  · exact fun s h hs => field_raw_of_present e _ s h hs
  · exact fun h => field_zero_of_absent e _ h
  · exact fun s h hs => field_raw_of_present e _ s h hs
  · exact fun h => field_zero_of_absent e _ h
  · exact fun s h hs => field_raw_of_present e _ s h hs
  · exact fun h => field_zero_of_absent e _ h
  · exact fun s h hs => field_raw_of_present e _ s h hs
  · exact fun h => field_zero_of_absent e _ h
  · exact fun s h hs => field_raw_of_present e _ s h hs
  · exact (List.length_map _ _)

/-- C2 witness: an element with no attributes gets `calories = 0`, and an
element whose `activeEnergyBurned` is the unparsable `"abc"` gets
`calories = parseFloat "abc"`. -/
theorem C2_amended_witness :
    (recordOfElement ⟨"ActivitySummary", []⟩).calories = JSNum.num 0 ∧
    (recordOfElement ⟨"ActivitySummary", [("activeEnergyBurned", "abc")]⟩).calories
      = jsParseFloat "abc" :=
  ⟨(C2_amended.1 ⟨"ActivitySummary", []⟩).1 (Or.inl rfl),
   (C2_amended.1 ⟨"ActivitySummary", [("activeEnergyBurned", "abc")]⟩).2.1 "abc" rfl
     (by decide)⟩

theorem ltActSummary_data :
    "<ActivitySummary".data = '<' :: "ActivitySummary".data := rfl

theorem isPrefixOf_append_self :
    ∀ (p l : List Char), p.isPrefixOf (p ++ l) = true
  | [], _ => by simp [List.isPrefixOf]
  | a :: as, l => by
    simp only [List.cons_append, List.isPrefixOf, beq_self_eq_true, Bool.true_and]
    exact isPrefixOf_append_self as l

theorem tagStartsHere_false_of_ne {c : Char} (h : c ≠ '<') (l : List Char) :
    tagStartsHere (c :: l) = false := by
  unfold tagStartsHere
  rw [ltActSummary_data]
  simp only [List.isPrefixOf]
  have : ('<' == c) = false := by simpa using (Ne.symm h)
  simp [this]

theorem extract_skip :
    ∀ (s0 : List Char) (f : Nat) (l : List Char), '<' ∉ s0 →
      extractAuxF (f + s0.length) (s0 ++ l) = extractAuxF f l
  | [], _, _, _ => rfl
  | c :: s0, f, l, h => by
    have hc : c ≠ '<' := fun hc => h (hc ▸ List.mem_cons_self _ _)
    have ht : '<' ∉ s0 := fun hm => h (List.mem_cons_of_mem _ hm)
    show extractAuxF ((f + s0.length) + 1) (c :: (s0 ++ l)) = extractAuxF f l
    simp only [extractAuxF, tagStartsHere_false_of_ne hc, Bool.false_eq_true, if_false]
    exact extract_skip s0 f l ht

theorem breakAfterGt_append :
    ∀ (m r : List Char), '>' ∉ m →
      breakAfterGt (m ++ '>' :: r) = some (m ++ ['>'], r)
  | [], r, _ => by simp [breakAfterGt]
  | c :: m, r, h => by
    have hc : c ≠ '>' := fun hc => h (hc ▸ List.mem_cons_self _ _)
    have ht : '>' ∉ m := fun hm => h (List.mem_cons_of_mem _ hm)
    simp only [List.cons_append, breakAfterGt, if_neg hc, List.append_eq,
      breakAfterGt_append m r ht]

theorem validAttrsB_cons {p : String × String} {t : List (String × String)}
    (h : validAttrsB (p :: t) = true) :
    validAttrsB t = true ∧
    (match p.1.data with
     | [] => false
     | c :: _ => isNameStartCharB c) = true ∧
    (∀ c ∈ p.1.data, isNameCharB c = true) ∧
    (∀ c ∈ p.2.data, ¬(c = '"' ∨ c = '<' ∨ c = '&' ∨ c = '>')) := by
  simp only [validAttrsB, List.all_cons, List.map_cons, List.nodup_cons,
    Bool.and_eq_true, decide_eq_true_eq, List.all_eq_true] at h ⊢
  obtain ⟨⟨hnm, hnd⟩, ⟨⟨hstart, hname⟩, hval⟩, hall⟩ := h
  refine ⟨⟨hnd, fun x hx => (hall x hx)⟩, hstart, fun c hc => by simpa using hname c hc, ?_⟩
  intro c hc
  have := hval c hc
  simp only [Bool.not_eq_eq_eq_not, Bool.not_true, Bool.or_eq_false_iff, beq_eq_false_iff_ne] at this
  tauto

theorem gt_not_mem_attrChars {attrs : List (String × String)}
    (h : validAttrsB attrs = true) : '>' ∉ renderAttrsChars attrs := by
  induction attrs with
  | nil => simp [renderAttrsChars]
  | cons p t ih =>
    obtain ⟨ht, _, hname, hval⟩ := validAttrsB_cons h
    intro hm
    have hre : renderAttrsChars (p :: t) = attrChars p ++ renderAttrsChars t := rfl
    rw [hre, List.mem_append] at hm
    cases hm with
    | inl hm1 =>
      have h1 : ('>' = ' ') ∨ '>' ∈ p.1.data ∨ ('>' = '=') ∨ ('>' = '"') ∨ '>' ∈ p.2.data := by
        simp only [attrChars, List.mem_append, List.mem_cons, List.mem_singleton,
          List.not_mem_nil, or_false] at hm1
        tauto
      rcases h1 with h1 | h1 | h1 | h1 | h1
      · exact absurd h1 (by decide)
      · exact absurd (hname '>' h1) (by decide)
      · exact absurd h1 (by decide)
      · exact absurd h1 (by decide)
      · exact (hval '>' h1) (Or.inr (Or.inr (Or.inr rfl)))
    | inr hm2 => exact ih ht hm2

theorem tagStartsHere_renderTag (attrs : List (String × String)) (rest : List Char) :
    tagStartsHere (renderTagChars attrs ++ rest) = true := by
  unfold tagStartsHere
  have hsplit : renderTagChars attrs ++ rest
      = "<ActivitySummary".data ++ (renderAttrsChars attrs ++ '/' :: '>' :: rest) := by
    rw [ltActSummary_data]
    simp [renderTagChars]
  rw [hsplit, isPrefixOf_append_self]
  rw [show (16 : Nat) = ("<ActivitySummary".data).length from rfl, List.drop_left]
  cases attrs with
  | nil => rfl
  | cons p t => rfl

theorem extractAuxF_cons_eq (f : Nat) (c : Char) (cs : List Char) :
    extractAuxF (f + 1) (c :: cs) =
      (if tagStartsHere (c :: cs) then
        match breakAfterGt (c :: cs) with
        | some (m, r) => m :: extractAuxF f r
        | none => []
      else extractAuxF f cs) := rfl

theorem extract_tag {attrs : List (String × String)} (f : Nat) (rest : List Char)
    (h : validAttrsB attrs = true) :
    extractAuxF (f + 1) (renderTagChars attrs ++ rest)
      = renderTagChars attrs :: extractAuxF f rest := by
  have hnm : ('>' : Char) ∉ ('<' :: "ActivitySummary".data) ++ renderAttrsChars attrs ++ ['/'] := by
    intro hm
    rw [List.mem_append, List.mem_append] at hm
    rcases hm with (h1 | h1) | h1
    · exact absurd h1 (by decide)
    · exact gt_not_mem_attrChars h h1
    · rw [List.mem_singleton] at h1
      exact (by decide : ('>' : Char) ≠ '/') h1
  have hbody : renderTagChars attrs ++ rest
      = (('<' :: "ActivitySummary".data) ++ renderAttrsChars attrs ++ ['/']) ++ '>' :: rest := by
    simp [renderTagChars]
  have hfold : (('<' :: "ActivitySummary".data) ++ renderAttrsChars attrs ++ ['/']) ++ ['>']
      = renderTagChars attrs := by
    simp [renderTagChars]
  have hbreak : breakAfterGt (renderTagChars attrs ++ rest)
      = some (renderTagChars attrs, rest) := by
    rw [hbody, breakAfterGt_append _ _ hnm, hfold]
  have hcons : renderTagChars attrs ++ rest
      = '<' :: ("ActivitySummary".data ++ renderAttrsChars attrs ++ ['/', '>'] ++ rest) := by
    simp [renderTagChars]
  rw [hcons, extractAuxF_cons_eq, ← hcons, tagStartsHere_renderTag, hbreak]
  simp

theorem extract_interleave :
    ∀ (parts : List (List (String × String) × List Char)) (s0 : List Char) (f : Nat),
      '<' ∉ s0 → (∀ p ∈ parts, validAttrsB p.1 = true ∧ '<' ∉ p.2) →
      extractAuxF (f + (interleave s0 parts).length) (interleave s0 parts)
        = parts.map (fun p => renderTagChars p.1)
  | [], s0, f, h0, _ => by
    show extractAuxF (f + s0.length) s0 = []
    have hskip := extract_skip s0 f [] h0
    rw [List.append_nil] at hskip
    rw [hskip]
    cases f <;> rfl
  | (attrs, sep) :: rest, s0, f, h0, h1 => by
    have hv : validAttrsB attrs = true := (h1 _ (List.mem_cons_self _ _)).1
    have hsep : '<' ∉ sep := (h1 _ (List.mem_cons_self _ _)).2
    have hrest : ∀ p ∈ rest, validAttrsB p.1 = true ∧ '<' ∉ p.2 :=
      fun p hp => h1 p (List.mem_cons_of_mem _ hp)
    have h1t : 1 ≤ (renderTagChars attrs).length := by
      simp [renderTagChars]
    have hil : interleave s0 ((attrs, sep) :: rest)
        = s0 ++ (renderTagChars attrs ++ interleave sep rest) := by
      simp [interleave, List.append_assoc]
    have e1 : f + (interleave s0 ((attrs, sep) :: rest)).length
        = ((f + ((renderTagChars attrs).length - 1) + (interleave sep rest).length) + 1)
            + s0.length := by
      simp only [hil, List.length_append]
      omega
    rw [e1, hil,
      extract_skip s0 ((f + ((renderTagChars attrs).length - 1) + (interleave sep rest).length) + 1)
        (renderTagChars attrs ++ interleave sep rest) h0,
      extract_tag (f + ((renderTagChars attrs).length - 1) + (interleave sep rest).length)
        (interleave sep rest) hv]
    have IH := extract_interleave rest sep (f + ((renderTagChars attrs).length - 1)) hsep hrest
    rw [IH]
    simp

theorem extractActivityXml_interleave (s0 : List Char)
    (parts : List (List (String × String) × List Char))
    (h0 : '<' ∉ s0) (h1 : ∀ p ∈ parts, validAttrsB p.1 = true ∧ '<' ∉ p.2) :
    extractActivityXml (strOf (interleave s0 parts)) = strOf (joinTags (parts.map Prod.fst)) := by
  unfold extractActivityXml
  rw [show (strOf (interleave s0 parts)).data = interleave s0 parts from rfl,
    show (strOf (interleave s0 parts)).length = (interleave s0 parts).length from rfl,
    show (interleave s0 parts).length + 1 = 1 + (interleave s0 parts).length from by omega,
    extract_interleave parts s0 1 h0 h1]
  unfold joinTags
  congr 1
  simp [List.map_map, Function.comp_def]

theorem takeWhile_append_all {p : List Char} {q : Char → Bool}
    (h : ∀ c ∈ p, q c = true) (x : List Char) :
    (p ++ x).takeWhile q = p ++ x.takeWhile q := by
  induction p with
  | nil => rfl
  | cons c t ih =>
    have hc : q c = true := h c (List.mem_cons_self _ _)
    simp only [List.cons_append, List.takeWhile_cons, hc, if_true]
    rw [ih (fun d hd => h d (List.mem_cons_of_mem _ hd))]

theorem dropWhile_append_all {p : List Char} {q : Char → Bool}
    (h : ∀ c ∈ p, q c = true) (x : List Char) :
    (p ++ x).dropWhile q = x.dropWhile q := by
  induction p with
  | nil => rfl
  | cons c t ih =>
    have hc : q c = true := h c (List.mem_cons_self _ _)
    simp only [List.cons_append, List.dropWhile_cons, hc, if_true]
    exact ih (fun d hd => h d (List.mem_cons_of_mem _ hd))

theorem nameStart_props {c : Char} (h : isNameStartCharB c = true) :
    c ≠ '/' ∧ c ≠ '>' ∧ isXmlSpaceB c = false ∧ isNameCharB c = true := by
  simp only [isNameStartCharB, Bool.or_eq_true, beq_iff_eq] at h
  rcases h with (h | rfl) | rfl
  · refine ⟨fun e => by subst e; revert h; decide,
      fun e => by subst e; revert h; decide, ?_, ?_⟩
    · cases hsp : isXmlSpaceB c
      · rfl
      · exfalso
        simp only [isXmlSpaceB, Bool.or_eq_true, beq_iff_eq] at hsp
        rcases hsp with ((rfl | rfl) | rfl) | rfl <;> revert h <;> decide
    · simp [isNameCharB, Char.isAlphanum, h]
  · decide
  · decide

theorem parseAttrValue_render :
    ∀ (v : List Char) (f : Nat) (rest : List Char),
      (∀ c ∈ v, ¬(c = '"' ∨ c = '<' ∨ c = '&' ∨ c = '>')) →
      parseAttrValue '"' (f + v.length + 1) (v ++ '"' :: rest) = some (v, rest)
  | [], f, rest, _ => by
    show parseAttrValue '"' (f + 1) ('"' :: rest) = some ([], rest)
    simp [parseAttrValue]
  | c :: v, f, rest, h => by
    have hc := h c (List.mem_cons_self _ _)
    have h1 : c ≠ '"' := fun e => hc (Or.inl e)
    have h2 : c ≠ '<' := fun e => hc (Or.inr (Or.inl e))
    have h3 : c ≠ '&' := fun e => hc (Or.inr (Or.inr (Or.inl e)))
    show parseAttrValue '"' ((f + v.length + 1) + 1) (c :: (v ++ '"' :: rest)) = some (c :: v, rest)
    simp only [parseAttrValue, if_neg h1, if_neg h2, if_neg h3,
      parseAttrValue_render v f rest (fun d hd => h d (List.mem_cons_of_mem _ hd))]

theorem parseOneAttr_render (n v : String) (rest : List Char)
    (hne : n.data ≠ [])
    (hname : ∀ c ∈ n.data, isNameCharB c = true)
    (hval : ∀ c ∈ v.data, ¬(c = '"' ∨ c = '<' ∨ c = '&' ∨ c = '>')) :
    parseOneAttr (n.data ++ ('=' :: '"' :: (v.data ++ '"' :: rest))) = some ((n, v), rest) := by
  simp only [parseOneAttr]
  rw [takeWhile_append_all hname, dropWhile_append_all hname]
  rw [show List.takeWhile isNameCharB ('=' :: '"' :: (v.data ++ '"' :: rest)) = [] from rfl]
  rw [List.append_nil, if_neg hne]
  rw [show List.dropWhile isNameCharB ('=' :: '"' :: (v.data ++ '"' :: rest))
      = '=' :: '"' :: (v.data ++ '"' :: rest) from rfl]
  show (match parseAttrValue '"' ((v.data ++ '"' :: rest).length + 1) (v.data ++ '"' :: rest) with
    | some (w, r6) => some ((strOf n.data, strOf w), r6)
    | none => none) = some ((n, v), rest)
  rw [show (v.data ++ '"' :: rest).length + 1 = ((rest.length + 1) + v.data.length) + 1 from by
    simp [List.length_append]
    omega]
  rw [parseAttrValue_render v.data (rest.length + 1) rest hval]
  rfl

theorem parseAttrsF_cons_eq (f : Nat) (b : Bool) (c : Char) (rest : List Char) :
    parseAttrsF (f + 1) b (c :: rest)
      = (if c = '/' ∨ c = '>' then some ([], c :: rest)
        else if isXmlSpaceB c then parseAttrsF f true rest
        else if b && isNameStartCharB c then
          match parseOneAttr (c :: rest) with
          | some (attr, r) =>
            match parseAttrsF f false r with
            | some (attrs, rr) => some (attr :: attrs, rr)
            | none => none
          | none => none
        else none) := rfl

theorem parseAttrsF_render :
    ∀ (attrs : List (String × String)) (f : Nat) (tl : List Char),
      validAttrsB attrs = true →
      parseAttrsF (f + 2 * attrs.length + 1) false (renderAttrsChars attrs ++ '/' :: tl)
        = some (attrs, '/' :: tl)
  | [], f, tl, _ => by
    show parseAttrsF (f + 1) false ('/' :: tl) = some ([], '/' :: tl)
    rw [parseAttrsF_cons_eq, if_pos (Or.inl rfl)]
  | (n, v) :: t, f, tl, h => by
    obtain ⟨ht, hstart, hname, hval⟩ := validAttrsB_cons h
    cases hd : n.data with
    | nil =>
      rw [hd] at hstart
      exact absurd hstart (by decide)
    | cons c cs =>
      rw [hd] at hstart
      have hstart2 : isNameStartCharB c = true := by simpa using hstart
      obtain ⟨hc1, hc2, hc3, _⟩ := nameStart_props hstart2
      have hshape : renderAttrsChars ((n, v) :: t) ++ '/' :: tl
          = ' ' :: (n.data ++ ('=' :: '"' :: (v.data ++ '"' :: (renderAttrsChars t ++ '/' :: tl)))) := by
        simp [renderAttrsChars, attrChars]
      have hfuel : f + 2 * (((n, v) :: t).length) + 1 = (((f + 2 * t.length + 1) + 1) + 1) := by
        simp only [List.length_cons]
        omega
      rw [hfuel, hshape, parseAttrsF_cons_eq,
        if_neg (by decide : ¬(' ' = '/' ∨ ' ' = '>')),
        if_pos (show isXmlSpaceB ' ' = true from rfl)]
      rw [hd, List.cons_append, parseAttrsF_cons_eq,
        if_neg (not_or.mpr ⟨hc1, hc2⟩),
        if_neg (by simp [hc3] : ¬ isXmlSpaceB c = true),
        if_pos (by simp [hstart2] : (true && isNameStartCharB c) = true)]
      rw [← List.cons_append, ← hd,
        parseOneAttr_render n v (renderAttrsChars t ++ '/' :: tl) (by simp [hd]) hname hval]
      show (match parseAttrsF (f + 2 * t.length + 1) false (renderAttrsChars t ++ '/' :: tl) with
        | some (attrs, rr) => some ((n, v) :: attrs, rr)
        | none => none) = some ((n, v) :: t, '/' :: tl)
      rw [parseAttrsF_render t f tl ht]

theorem two_mul_le_renderAttrs (attrs : List (String × String)) :
    2 * attrs.length ≤ (renderAttrsChars attrs).length := by
  induction attrs with
  | nil => simp [renderAttrsChars]
  | cons p t ih =>
    have : renderAttrsChars (p :: t) = attrChars p ++ renderAttrsChars t := rfl
    rw [this]
    simp only [List.length_append, List.length_cons, attrChars]
    simp only [List.length_append, List.length_cons, List.length_singleton] at *
    omega

theorem parseElementAfterLt_render (attrs : List (String × String)) (rest : List Char)
    (h : validAttrsB attrs = true) :
    parseElementAfterLt ("ActivitySummary".data ++ (renderAttrsChars attrs ++ '/' :: '>' :: rest))
      = some (elemOfAttrs attrs, rest) := by
  have hall : ∀ c ∈ "ActivitySummary".data, isNameCharB c = true := by decide
  have hnd : (attrs.map Prod.fst).Nodup := by
    simp only [validAttrsB, Bool.and_eq_true, decide_eq_true_eq] at h
    exact h.1
  have htw : List.takeWhile isNameCharB (renderAttrsChars attrs ++ '/' :: '>' :: rest) = [] := by
    cases attrs with
    | nil => rfl
    | cons p t => rfl
  have hdw : List.dropWhile isNameCharB (renderAttrsChars attrs ++ '/' :: '>' :: rest)
      = renderAttrsChars attrs ++ '/' :: '>' :: rest := by
    cases attrs with
    | nil => rfl
    | cons p t => rfl
  have hL : (renderAttrsChars attrs ++ '/' :: '>' :: rest).length + 1
      = ((renderAttrsChars attrs).length + rest.length + 2 - 2 * attrs.length)
          + 2 * attrs.length + 1 := by
    have h2 := two_mul_le_renderAttrs attrs
    simp only [List.length_append, List.length_cons]
    omega
  simp only [parseElementAfterLt]
  rw [takeWhile_append_all hall, dropWhile_append_all hall, htw, hdw, List.append_nil, hL,
    parseAttrsF_render attrs ((renderAttrsChars attrs).length + rest.length + 2 - 2 * attrs.length)
      ('>' :: rest) h]
  show (if (attrs.map Prod.fst).Nodup then
      some ((⟨strOf "ActivitySummary".data, attrs⟩ : XmlElement), rest) else none)
    = some (elemOfAttrs attrs, rest)
  rw [if_pos hnd]
  rfl

theorem tags_le_joinTags (tags : List (List (String × String))) :
    tags.length ≤ (joinTags tags).length := by
  induction tags with
  | nil => simp [joinTags]
  | cons a t ih =>
    have he : joinTags (a :: t) = renderTagChars a ++ joinTags t := rfl
    rw [he]
    simp only [List.length_append, List.length_cons, renderTagChars]
    omega

theorem parseItemsF_render :
    ∀ (tags : List (List (String × String))) (f : Nat) (r : List Char),
      (∀ a ∈ tags, validAttrsB a = true) →
      parseItemsF (f + tags.length + 1) (joinTags tags ++ '<' :: '/' :: r)
        = some (tags.map elemOfAttrs, '<' :: '/' :: r)
  | [], f, r, _ => by
    show parseItemsF (f + 1) ('<' :: '/' :: r) = some ([], '<' :: '/' :: r)
    rfl
  | a :: t, f, r, h => by
    have hv := h a (List.mem_cons_self _ _)
    have ht : ∀ b ∈ t, validAttrsB b = true := fun b hb => h b (List.mem_cons_of_mem _ hb)
    have hjoin : joinTags (a :: t) ++ '<' :: '/' :: r
        = '<' :: ("ActivitySummary".data
            ++ (renderAttrsChars a ++ '/' :: '>' :: (joinTags t ++ '<' :: '/' :: r))) := by
      simp [joinTags, renderTagChars, List.append_assoc]
    have hfuel : f + (a :: t).length + 1 = (((f + t.length) + 1) + 1) := by
      simp only [List.length_cons]
      omega
    rw [hfuel, hjoin]
    show (match parseElementAfterLt ("ActivitySummary".data
        ++ (renderAttrsChars a ++ '/' :: '>' :: (joinTags t ++ '<' :: '/' :: r))) with
      | some (e, rr) =>
        (match parseItemsF ((f + t.length) + 1) rr with
          | some (es, rr2) => some (e :: es, rr2)
          | none => none)
      | none => none) = some ((a :: t).map elemOfAttrs, '<' :: '/' :: r)
    rw [parseElementAfterLt_render a _ hv]
    show (match parseItemsF ((f + t.length) + 1) (joinTags t ++ '<' :: '/' :: r) with
      | some (es, rr2) => some (elemOfAttrs a :: es, rr2)
      | none => none) = some ((a :: t).map elemOfAttrs, '<' :: '/' :: r)
    have hfuel2 : (f + t.length) + 1 = f + t.length + 1 := rfl
    rw [hfuel2, parseItemsF_render t f r ht]
    rfl

theorem parseDocChars_render (tags : List (List (String × String)))
    (h : ∀ a ∈ tags, validAttrsB a = true) :
    parseDocChars (("<root>" ++ strOf (joinTags tags) ++ "</root>").data)
      = some (tags.map elemOfAttrs) := by
  have hdata : ("<root>" ++ strOf (joinTags tags) ++ "</root>").data
      = "<root>".data ++ (joinTags tags ++ "</root>".data) := by
    simp [String.data_append, strOf, List.append_assoc]
  have hle : tags.length ≤ ("<root>".data ++ (joinTags tags ++ "</root>".data)).length := by
    have := tags_le_joinTags tags
    simp only [List.length_append]
    omega
  have hfuel : ("<root>".data ++ (joinTags tags ++ "</root>".data)).length + 1
      = (("<root>".data ++ (joinTags tags ++ "</root>".data)).length - tags.length)
          + tags.length + 1 := by
    omega
  have hp : parseItemsF ((("<root>".data ++ (joinTags tags ++ "</root>".data)).length
        - tags.length) + tags.length + 1) (joinTags tags ++ "</root>".data)
      = some (tags.map elemOfAttrs, "</root>".data) :=
    parseItemsF_render tags _ ("root>".data) h
  simp only [parseDocChars]
  rw [hdata, isPrefixOf_append_self,
    show (6 : Nat) = ("<root>".data).length from rfl, List.drop_left, hfuel, hp]
  show (if ("</root>".data : List Char) = "</root>".data then some (tags.map elemOfAttrs)
      else none) = some (tags.map elemOfAttrs)
  rw [if_pos rfl]

theorem parseXmlData_render (tags : List (List (String × String)))
    (h : ∀ a ∈ tags, validAttrsB a = true) :
    parseXmlData (strOf (joinTags tags)) = tags.map recordOfAttrs := by
  unfold parseXmlData activityElements
  rw [parseDocChars_render tags h]
  show ((tags.map elemOfAttrs).filter (fun e => e.name = "ActivitySummary")).map recordOfElement
      = tags.map recordOfAttrs
  have hfil : (tags.map elemOfAttrs).filter (fun e => e.name = "ActivitySummary")
      = tags.map elemOfAttrs := by
    rw [List.filter_eq_self]
    intro e he
    rw [List.mem_map] at he
    obtain ⟨a, _, rfl⟩ := he
    simp [elemOfAttrs]
  rw [hfil, List.map_map]
  simp [Function.comp_def, recordOfAttrs]

/-- C6: for every input text made of junk (containing no `<`) around N
well-formed self-closing `ActivitySummary` record tags, extraction
followed by parsing yields exactly the N corresponding records, in the
order the tags appear in the text. -/
theorem C6_roundtrip (s0 : List Char) (parts : List (List (String × String) × List Char))
    (h0 : '<' ∉ s0)
    (h1 : ∀ p ∈ parts, validAttrsB p.1 = true ∧ '<' ∉ p.2) :
    parseXmlData (extractActivityXml (strOf (interleave s0 parts)))
      = parts.map (fun p => recordOfAttrs p.1) := by
  rw [extractActivityXml_interleave s0 parts h0 h1]
  rw [parseXmlData_render (parts.map Prod.fst) (by
    intro a ha
    rw [List.mem_map] at ha
    obtain ⟨p, hp, rfl⟩ := ha
    exact (h1 p hp).1)]
  rw [List.map_map]
  rfl

/-- C6 witness: two concrete tags embedded in junk round-trip to exactly
their two records, in source order. -/
theorem C6_roundtrip_witness :
    parseXmlData (extractActivityXml (strOf (interleave "junk".data
        [([("dateComponents", "2024-01-01")], " mid ".data), ([], [])])))
      = [recordOfAttrs [("dateComponents", "2024-01-01")], recordOfAttrs []] :=
  C6_roundtrip "junk".data
    [([("dateComponents", "2024-01-01")], " mid ".data), ([], [])]
    (by decide) (by decide)

end ActivityAnalyzer
